import Mathlib

/-!
Shallow embedding of the `MergePaths` program (ParseAligns.cpp) and proofs
about its specification claims.

The embedding follows the C++ source closely:
* `MergeNode`, `ContigPath` and their reverse-complement come from headers
  that are not part of the sources at hand; they are modelled from the spec.
* Machine integers (`size_t`, `unsigned`) are modelled as `Nat`; the program
  enforces `k >= 1` at the command line, so `kmer - 1` never wraps on the
  reachable inputs and is modelled as natural subtraction.
* A failed `assert` (or an out-of-range `std::string::substr`) aborts the
  process; the embedding models abortion as `none` / an `Except` error.
-/

set_option maxHeartbeats 1000000

namespace MergePaths

/-- Modelled from the spec: `MergeNode` (an *OrientedContig*) is a pair of a
dense numeric contig key and an orientation flag; two nodes are equal iff both
fields match. The C++ definition lives in a header outside the given sources. -/
structure MergeNode where
  id : Nat
  isRC : Bool
deriving DecidableEq

/-- Modelled from the spec: a path is an ordered sequence of oriented
contigs (C++ `ContigPath`, a vector of `MergeNode`). -/
abbrev ContigPath := List MergeNode

/-- Default node used for (unreachable) out-of-bounds indexing. -/
def dmn : MergeNode := ⟨0, false⟩

/-- Modelled from the spec: reverse-complement of a path reverses the element
order and toggles every orientation flag. -/
def reverseComplementPath (p : ContigPath) : ContigPath :=
  (p.map (fun n => ⟨n.id, !n.isRC⟩)).reverse

/-- Modelled from the spec: per-symbol complement. `A↔T`, `C↔G`, `N↔N`, with
letter case preserved; colour-space digits are unchanged. -/
def complementChar (c : Char) : Char :=
  if c = 'A' then 'T' else if c = 'T' then 'A'
  else if c = 'C' then 'G' else if c = 'G' then 'C'
  else if c = 'a' then 't' else if c = 't' then 'a'
  else if c = 'c' then 'g' else if c = 'g' then 'c'
  else c

/-- Modelled from the spec: reverse-complement of a sequence (C++
`reverseComplement` on `Sequence`, outside the given sources): reverse the
string and complement each symbol. -/
def reverseComplementSeq (s : List Char) : List Char :=
  (s.map complementChar).reverse

/-- A contig record: interned numeric name, sequence, coverage.
The name is modelled from the spec as the dense numeric key
(`g_contigIDs.serial(rec.id) == index` is asserted by `main`). -/
structure Contig where
  name : Nat
  seq : List Char
  coverage : Nat
deriving DecidableEq

def dContig : Contig := ⟨0, [], 0⟩

/-- C++ `extDirection` (from `Sense.h`): `SENSE = 0` keeps the accumulator on
the left of the splice, per the spec's splicer contract. -/
inductive extDirection where
  | SENSE
  | ANTISENSE
deriving DecidableEq

/-- How a call of the splicer can abort the process. -/
inductive SpliceError where
  /-- `std::string::substr` threw (accumulator shorter than the overlap). -/
  | outOfRange
  /-- The `k-1` window mismatched: the diagnostic prints both sequences
  (`rootContig` and `otherContig`) before the failing `assert`. -/
  | overlapViolation (rootContig otherContig : List Char)
  /-- `assert(!seq.empty())` in `mergePath` failed. -/
  | assertEmpty
  /-- `currPath[0]` on an empty path. -/
  | emptyPath
deriving DecidableEq

/-- Embedding of `mergeSequences` (ParseAligns.cpp, lines 729-767).
`overlap = kmer - 1`; the slave sequence is reverse-complemented when
`isReversed`; for `SENSE` the root is the left sequence.  The last `overlap`
symbols of the left sequence must equal the first `overlap` symbols of the
right one, otherwise the program prints both sequences and fails the assert
(`overlapViolation`).  `substr(length - overlap, overlap)` throws when the
left sequence is shorter than `overlap` (`outOfRange`). -/
def mergeSequences (rootContig otherContig : List Char) (dir : extDirection)
    (isReversed : Bool) (kmer : Nat) : Except SpliceError (List Char) :=
  let overlap := kmer - 1
  let slaveSeq := if isReversed then reverseComplementSeq otherContig else otherContig
  let leftSeq := match dir with
    | .SENSE => rootContig
    | .ANTISENSE => slaveSeq
  let rightSeq := match dir with
    | .SENSE => slaveSeq
    | .ANTISENSE => rootContig
  if overlap ≤ leftSeq.length then
    let leftEnd := leftSeq.drop (leftSeq.length - overlap)
    let rightBegin := rightSeq.take overlap
    if leftEnd = rightBegin then
      .ok (leftSeq ++ rightSeq.drop overlap)
    else
      .error (.overlapViolation rootContig otherContig)
  else
    .error .outOfRange

/-- The loop of `mergePath` (lines 713-722): for each subsequent node, assert
its sequence non-empty, splice it onto the accumulator with `SENSE`
orientation handling, and add its coverage. -/
def mergeLoop (cv : List Contig) (kmer : Nat) :
    List Char × Nat → List MergeNode → Except SpliceError (List Char × Nat)
  | acc, [] => .ok acc
  | acc, mn :: rest =>
    let contig := cv.getD mn.id dContig
    if contig.seq = [] then .error .assertEmpty
    else
      match mergeSequences acc.1 contig.seq .SENSE mn.isRC kmer with
      | .error e => .error e
      | .ok s => mergeLoop cv kmer (s, acc.2 + contig.coverage) rest

/-- Embedding of `mergePath` (lines 693-727), restricted to its splicing
result: seed with the first contig's sequence (reverse-complemented iff its
flag is set) and its coverage, then run `mergeLoop` over the remaining
nodes.  The output stream writing is dropped; the produced pair is exactly
the `<length> <coverage>` data of the emitted record. -/
def mergePathSpliced (cv : List Contig) (currPath : ContigPath) (kmer : Nat) :
    Except SpliceError (List Char × Nat) :=
  match currPath with
  | [] => .error .emptyPath
  | firstNode :: rest =>
    let firstContig := cv.getD firstNode.id dContig
    let merged := if firstNode.isRC then reverseComplementSeq firstContig.seq
                  else firstContig.seq
    if merged = [] then .error .assertEmpty
    else mergeLoop cv kmer (merged, firstContig.coverage) rest

/-- Follows the spec's words (claims C1/C7): the path's orientation-applied
sequences jointly satisfy the `k-1` overlap, i.e. along the accumulation the
last `k-1` symbols of the accumulator exist and equal the first `k-1` symbols
of each incoming orientation-applied sequence. -/
def spliceWindowsGo (cv : List Contig) (kmer : Nat) :
    List Char → List MergeNode → Bool
  | _, [] => true
  | acc, mn :: rest =>
    let raw := (cv.getD mn.id dContig).seq
    let slave := if mn.isRC then reverseComplementSeq raw else raw
    decide (kmer - 1 ≤ acc.length) &&
      decide (acc.drop (acc.length - (kmer - 1)) = slave.take (kmer - 1)) &&
      spliceWindowsGo cv kmer (acc ++ slave.drop (kmer - 1)) rest

/-- Follows the spec's words (claims C1/C7): every adjacent `k-1` window along
the path matches. -/
def spliceWindowsOK (cv : List Contig) (path : ContigPath) (kmer : Nat) : Bool :=
  match path with
  | [] => true
  | firstNode :: rest =>
    let firstContig := cv.getD firstNode.id dContig
    let seed := if firstNode.isRC then reverseComplementSeq firstContig.seq
                else firstContig.seq
    spliceWindowsGo cv kmer seed rest

/-! ### The path-file reader (`readPathsFromFile`, lines 321-359)

The tokenizer for one line is an external collaborator per the spec; a parsed
line is a `PathRecord` (root id, root sign, tail path).  The store is the
`ContigPathMap`, modelled as an association list keyed by the root id. -/

/-- One parsed line `@ <root><sign> -> <tail>` of the path file. -/
structure PathRecord where
  id : Nat
  isRC : Bool
  path : ContigPath
deriving DecidableEq

abbrev Store := List (Nat × ContigPath)

/-- `map[id] = p`: replace the binding when present, append it otherwise. -/
def storeSet (m : Store) (k : Nat) (p : ContigPath) : Store :=
  if (m.lookup k).isSome then
    m.map (fun e => if e.1 = k then (k, p) else e)
  else
    m ++ [(k, p)]

/-- One iteration of the `readPathsFromFile` loop body (lines 342-354):
find-or-create the entry for the root with initial content `[rootNode]`;
for a forward record assert the entry is still the singleton root and append
the tail; for a reverse record assert the front is the root, reverse the tail
elementwise and insert it at the *beginning* of the stored path.  A failed
assert aborts (`none`). -/
def processRecord (m : Store) (r : PathRecord) : Option Store :=
  let rootNode : MergeNode := ⟨r.id, false⟩
  let p := (m.lookup r.id).getD [rootNode]
  if r.isRC = false then
    if p.length = 1 ∧ p.head? = some rootNode then
      some (storeSet m r.id (p ++ r.path))
    else none
  else
    if p.head? = some rootNode then
      some (storeSet m r.id (r.path.reverse ++ p))
    else none

/-- Embedding of `readPathsFromFile`: fold the record list through
`processRecord`, starting from the empty store. -/
def readPathsFromFile (records : List PathRecord) : Option Store :=
  records.foldlM processRecord []

/-! ### The pairwise consistency check (`checkPathConsistency`, lines 471-609) -/

/-- C++ `PathConsistencyStats` (lines 96-103). -/
structure PathConsistencyStats where
  startP1 : Nat
  endP1 : Nat
  startP2 : Nat
  endP2 : Nat
  flipped : Bool
  duplicateSize : Bool
deriving DecidableEq

/-- Embedding of `extractMinCoordSet` (lines 613-627): the indices at which
`anchor` occurs in `path`, collected in descending order (the C++ loop visits
`tIdx = maxIdx - idx - 1`).  The C++ boolean result is `!coords.isEmpty`. -/
def extractMinCoordSet (anchor : Nat) (path : ContigPath) : List Nat :=
  ((List.range path.length).reverse).filter
    (fun i => (path.getD i dmn).id = anchor)

/-- The low-coordinate loop (lines 517-531): walk both start indices down in
lockstep while the ids match; stop successfully on a path boundary, fail
(`none`) on an id mismatch. -/
def lowScan (p1 p2 : ContigPath) : Nat → Nat → Option (Nat × Nat)
  | s1, s2 =>
    if (p1.getD s1 dmn).id ≠ (p2.getD s2 dmn).id then none
    else
      match s1, s2 with
      | 0, _ => some (0, s2)
      | _ + 1, 0 => some (s1, 0)
      | t1 + 1, t2 + 1 => lowScan p1 p2 t1 t2

/-- The high-coordinate loop (lines 534-548) with an explicit fuel argument
so that the kernel can evaluate it; `highScan` below instantiates the fuel
with `max1 - e1`, which is enough for the loop to reach a boundary first
(the `fuel = 0` branch is unreachable from `highScan`). -/
def highScanF (p1 p2 : ContigPath) (max1 max2 : Nat) :
    Nat → Nat → Nat → Option (Nat × Nat)
  | fuel, e1, e2 =>
    if (p1.getD e1 dmn).id ≠ (p2.getD e2 dmn).id then none
    else if max1 ≤ e1 ∨ e2 = max2 then some (e1, e2)
    else
      match fuel with
      | 0 => none
      | f + 1 => highScanF p1 p2 max1 max2 f (e1 + 1) (e2 + 1)

/-- The high-coordinate loop: walk both end indices up in lockstep while the
ids match; stop successfully on a path boundary (`endP1 = max1` or
`endP2 = max2`), fail on an id mismatch. -/
def highScan (p1 p2 : ContigPath) (max1 max2 e1 e2 : Nat) : Option (Nat × Nat) :=
  highScanF p1 p2 max1 max2 (max1 - e1) e1 e2

/-- `pathAlignments` update (lines 552-561): a fresh size is inserted with
`duplicateSize = false`; recording a second alignment of an existing size
only sets that entry's `duplicateSize` flag (the stored coordinates are the
first ones recorded). -/
def insertAlignment (al : List (Nat × PathConsistencyStats)) (count : Nat)
    (fresh : PathConsistencyStats) : List (Nat × PathConsistencyStats) :=
  match al.lookup count with
  | none => al ++ [(count, fresh)]
  | some _ =>
      al.map (fun e =>
        if e.1 = count then (e.1, { e.2 with duplicateSize := true }) else e)

/-- `--pathAlignments.end()` on the non-empty ordered map (lines 576-578):
the entry with the largest recorded size. -/
def biggestAlignment (al : List (Nat × PathConsistencyStats)) :
    Option (Nat × PathConsistencyStats) :=
  al.foldl
    (fun acc e =>
      match acc with
      | none => some e
      | some b => if b.1 < e.1 then some e else some b)
    none

/-- The mutable state threaded through the double seed loop: `path2` (which
`reverseComplement()` mutates in place), the `flipped` flag and the
`pathAlignments` map. -/
structure SeedState where
  path2 : ContigPath
  flipped : Bool
  alignments : List (Nat × PathConsistencyStats)
deriving DecidableEq

/-- One iteration of the nested seed loop (lines 498-563): position the seed
pair (compensating `startP2` by the current flip state), reconcile the
orientation flags by reverse-complementing `path2` in place when they differ,
run the two extension loops, and record the alignment when both are valid. -/
def seedStep (path1 : ContigPath) (max1 max2 : Nat) (st : SeedState)
    (c1 c2 : Nat) : SeedState :=
  let startP1 := c1
  let s2a := if st.flipped then max2 - c2 else c2
  let needFlip := (path1.getD startP1 dmn).isRC ≠ (st.path2.getD s2a dmn).isRC
  let path2 := if needFlip then reverseComplementPath st.path2 else st.path2
  let flipped := if needFlip then !st.flipped else st.flipped
  let startP2 := if needFlip then max2 - s2a else s2a
  match lowScan path1 path2 startP1 startP2,
        highScan path1 path2 max1 max2 startP1 startP2 with
  | some (a1, a2), some (b1, b2) =>
      { path2 := path2, flipped := flipped,
        alignments := insertAlignment st.alignments (b1 - a1)
          ⟨a1, b1, a2, b2, flipped, false⟩ }
  | _, _ => { path2 := path2, flipped := flipped, alignments := st.alignments }

/-- The full double loop over all seed pairs, outer over `coords1`, inner
over `coords2`. -/
def runSeeds (path1 : ContigPath) (max1 max2 : Nat)
    (coords1 coords2 : List Nat) (init : SeedState) : SeedState :=
  coords1.foldl
    (fun st c1 => coords2.foldl (fun st c2 => seedStep path1 max1 max2 st c1 c2) st)
    init

/-- The re-check loop (lines 600-605): `c` ranges over `0 ≤ c < count`. -/
def interiorMismatch (p1 p2 : ContigPath) (s1 s2 count : Nat) : Bool :=
  (List.range count).any
    (fun c => decide ((p1.getD (s1 + c) dmn).id ≠ (p2.getD (s2 + c) dmn).id))

/-- The observable result of `checkPathConsistency`: the boolean return
value, the four out-parameters and the (possibly reverse-complemented)
`path2` as left by the call. -/
structure CheckResult where
  valid : Bool
  startP1 : Nat
  endP1 : Nat
  startP2 : Nat
  endP2 : Nat
  path2 : ContigPath
deriving DecidableEq

/-- The state left by the full seed loop of `checkPathConsistency` (lines
498-564): seeds from the coordinate sets of the two paths, started with the
unflipped `path2` and an empty alignment map. -/
def checkSeedState (path2Root : Nat) (path1 path2 : ContigPath) : SeedState :=
  runSeeds path1 (path1.length - 1) (path2.length - 1)
    (extractMinCoordSet path2Root path1) (extractMinCoordSet path2Root path2)
    ⟨path2, false, []⟩

/-- Embedding of `checkPathConsistency` (lines 471-609).  `none` models an
aborted `assert`: the entry assertion `path1.size() != 0 && path2.size() != 1`
(line 478) and the two sanity assertions at the resolve step (lines 581-582).
The out-parameters are only meaningful on a `true` return; the `false`
returns leave them as the embedding's zeros. -/
def checkPathConsistency (path2Root : Nat) (path1 path2 : ContigPath) :
    Option CheckResult :=
  if path1.length = 0 ∨ path2.length = 1 then none
  else
    let coords1 := extractMinCoordSet path2Root path1
    let coords2 := extractMinCoordSet path2Root path2
    if coords1.isEmpty ∨ coords2.isEmpty then some ⟨false, 0, 0, 0, 0, path2⟩
    else
      let max1 := path1.length - 1
      let max2 := path2.length - 1
      let st := checkSeedState path2Root path1 path2
      match biggestAlignment st.alignments with
      | none => some ⟨false, 0, 0, 0, 0, st.path2⟩
      | some (count, stats) =>
        if ¬ (stats.startP1 = 0 ∨ stats.startP2 = 0) then none
        else if ¬ (stats.endP1 = max1 ∨ stats.endP2 = max2) then none
        else if stats.duplicateSize ∧ count ≠ min max1 max2 then
          some ⟨false, 0, 0, 0, 0, st.path2⟩
        else
          let path2f := if stats.flipped ≠ st.flipped
                        then reverseComplementPath st.path2 else st.path2
          if interiorMismatch path1 path2f stats.startP1 stats.startP2 count then
            some ⟨false, stats.startP1, stats.endP1, stats.startP2, stats.endP2, path2f⟩
          else
            some ⟨true, stats.startP1, stats.endP1, stats.startP2, stats.endP2, path2f⟩

/-- The invariant of one recorded `pathAlignments` entry (verified for every
entry the seed loop records): the key is the inclusive span (`endP - startP`)
on both paths, the span touches index 0 in at least one path and the last
index in at least one path, it stays in bounds, and the contig ids agree
element-by-element against `path2` in the orientation recorded by `flipped`
(the number of in-place reverse-complements applied to the original). -/
def StatsOK (path1 p2orig : ContigPath) (max1 max2 : Nat)
    (e : Nat × PathConsistencyStats) : Prop :=
  e.2.endP1 = e.2.startP1 + e.1 ∧ e.2.endP2 = e.2.startP2 + e.1 ∧
  (e.2.startP1 = 0 ∨ e.2.startP2 = 0) ∧
  (e.2.endP1 = max1 ∨ e.2.endP2 = max2) ∧
  e.2.endP1 ≤ max1 ∧ e.2.endP2 ≤ max2 ∧
  ∀ t, t ≤ e.1 →
    (path1.getD (e.2.startP1 + t) dmn).id
      = ((if e.2.flipped then reverseComplementPath p2orig else p2orig).getD
          (e.2.startP2 + t) dmn).id

/-- The invariant of the seed-loop state: `path2` is the original second path
reverse-complemented `flipped`-many times, and every recorded alignment
satisfies `StatsOK`. -/
def StateOK (path1 p2orig : ContigPath) (max1 max2 : Nat)
    (st : SeedState) : Prop :=
  st.path2 = (if st.flipped then reverseComplementPath p2orig else p2orig) ∧
  ∀ e ∈ st.alignments, StatsOK path1 p2orig max1 max2 e

/-! ### Emission (`main`, lines 247-259 and 301-307) -/

/-- Strict order on nodes used for the lexicographic path comparison
(`MergeNode::operator<`, outside the given sources); modelled from the spec's
requirement of a total lexicographic order over the element sequence. -/
def nodeLT (a b : MergeNode) : Bool :=
  decide (a.id < b.id) || (decide (a.id = b.id) && (!a.isRC && b.isRC))

/-- Lexicographic comparison of paths (`vector<MergeNode>::operator<`). -/
def pathLE : ContigPath → ContigPath → Bool
  | [], _ => true
  | _ :: _, [] => false
  | a :: as, b :: bs => if nodeLT a b then true else if nodeLT b a then false else pathLE as bs

/-- The `set<ContigPath*> uniquePtr` of lines 247-250: deduplicate the stored
paths by their *pointer* (storage identity).  An entry is a pair of an
address and the path value stored there. -/
def dedupByAddr (entries : List (Nat × ContigPath)) : List (Nat × ContigPath) :=
  entries.foldl
    (fun acc e => if (acc.map Prod.fst).contains e.1 then acc else acc ++ [e])
    []

/-- Lines 247-259: collect the stored paths, deduplicate them by pointer
identity, and sort the resulting values lexicographically (`std::sort`
produces a sorted permutation; insertion sort models it). -/
def uniquePathsOf (entries : List (Nat × ContigPath)) : List ContigPath :=
  List.insertionSort (fun x y => pathLE x y = true)
    ((dedupByAddr entries).map Prod.snd)

/-- Lines 301-303: the FASTA id counter is seeded by parsing the *name* of
the last pre-existing contig (`g_contigIDs.key(contigVec.size() - 1)`) as an
integer; names are modelled from the spec as dense numeric keys. -/
def seedFastaId (cv : List Contig) : Nat := (cv.getD (cv.length - 1) dContig).name

/-- The highest pre-existing contig id. -/
def highestContigId (cv : List Contig) : Nat := (cv.map Contig.name).foldr max 0

/-- Lines 304-307: emit one merged record per canonical path; the record id
is the current counter value (`id++` passes the value *before* the
increment).  A splice failure aborts the program, so emission stops there. -/
def fastaEmit (cv : List Contig) (paths : List ContigPath) (kmer : Nat) :
    Except SpliceError (List (Nat × (List Char × Nat))) :=
  (paths.foldlM
    (fun (acc : List (Nat × (List Char × Nat)) × Nat) p =>
      (mergePathSpliced cv p kmer).map
        (fun r => (acc.1 ++ [(acc.2, r)], acc.2 + 1)))
    ([], seedFastaId cv)).map Prod.fst

/-! ### Helper lemmas: the store -/

theorem lookup_cons_pair (m : Store) (a j : Nat) (b : ContigPath) :
    ((a, b) :: m).lookup j = if j = a then some b else m.lookup j := by
  by_cases hj : j = a
  · subst hj; simp
  · have hb : (j == a) = false := by simpa using hj
    simp [List.lookup_cons, hb, hj]

theorem lookup_replace (m : Store) (k : Nat) (p : ContigPath) (j : Nat) :
    (m.map (fun e => if e.1 = k then (k, p) else e)).lookup j
      = if j = k then (if (m.lookup k).isSome then some p else none)
        else m.lookup j := by
  induction m with
  | nil => simp
  | cons e m ih =>
    obtain ⟨a, b⟩ := e
    simp only [List.map_cons]
    rw [lookup_cons_pair m a k b, lookup_cons_pair m a j b]
    by_cases hak : a = k
    · rw [if_pos hak]
      rw [lookup_cons_pair _ k j p]
      subst hak
      by_cases hj : j = a
      · simp [hj]
      · simp only [if_neg hj, ih]
    · rw [if_neg hak, lookup_cons_pair _ a j b]
      have hka : ¬ k = a := fun h => hak h.symm
      rw [if_neg hka]
      by_cases hj : j = a
      · have hjk : ¬ j = k := by rw [hj]; exact hak
        rw [if_pos hj, if_neg hjk, if_pos hj]
      · rw [if_neg hj, if_neg hj, ih]

theorem lookup_append_single (m : Store) (k : Nat) (p : ContigPath) (j : Nat) :
    (m ++ [(k, p)]).lookup j
      = ((m.lookup j).orElse (fun _ => if j = k then some p else none)) := by
  induction m with
  | nil => simp [lookup_cons_pair]
  | cons e m ih =>
    obtain ⟨a, b⟩ := e
    by_cases hj : j = a
    · subst hj; simp [List.cons_append, lookup_cons_pair]
    · simp [List.cons_append, lookup_cons_pair, hj, ih]

theorem storeSet_lookup (m : Store) (k : Nat) (p : ContigPath) (j : Nat) :
    (storeSet m k p).lookup j = if j = k then some p else m.lookup j := by
  unfold storeSet
  split
  case isTrue h =>
    rw [lookup_replace]
    by_cases hj : j = k
    · simp [hj, h]
    · simp [hj]
  case isFalse h =>
    rw [lookup_append_single]
    by_cases hj : j = k
    · subst hj
      rw [Option.not_isSome_iff_eq_none] at h
      simp [h]
    · cases hm : m.lookup j <;> simp [hj, hm]

theorem singleton_of_length_one_head (p : ContigPath) (x : MergeNode)
    (hl : p.length = 1) (hh : p.head? = some x) : p = [x] := by
  match p, hl with
  | [a], _ =>
    simp only [List.head?_cons, Option.some.injEq] at hh
    rw [hh]

/-- Generic invariant preservation along `readPathsFromFile`'s fold. -/
theorem foldlM_store_inv (P : Store → Prop) :
    ∀ (rs : List PathRecord) (m m' : Store),
      (∀ m0 r m1, r ∈ rs → P m0 → processRecord m0 r = some m1 → P m1) →
      P m → rs.foldlM processRecord m = some m' → P m'
  | [], m, m', _, hP, hfold => by
    simp only [List.foldlM_nil, Option.pure_def, Option.some.injEq] at hfold
    exact hfold ▸ hP
  | r :: rs, m, m', hstep, hP, hfold => by
    simp only [List.foldlM_cons] at hfold
    cases h1 : processRecord m r with
    | none => rw [h1] at hfold; exact absurd hfold (by simp)
    | some m1 =>
      rw [h1] at hfold
      have hfold : rs.foldlM processRecord m1 = some m' := hfold
      exact foldlM_store_inv P rs m1 m'
        (fun m0 r' m2 hr' => hstep m0 r' m2 (List.mem_cons_of_mem _ hr'))
        (hstep m r m1 (List.mem_cons_self _ _) hP h1) hfold

theorem processRecord_keeps_root (m m' : Store) (r : PathRecord)
    (hinv : ∀ k p, m.lookup k = some p →
      ∃ pre post, p = pre ++ (⟨k, false⟩ : MergeNode) :: post)
    (hstep : processRecord m r = some m') :
    ∀ k p, m'.lookup k = some p →
      ∃ pre post, p = pre ++ (⟨k, false⟩ : MergeNode) :: post := by
  simp only [processRecord] at hstep
  split at hstep
  case isTrue hdir =>
    split at hstep
    case isTrue hg =>
      injection hstep with hm'
      subst hm'
      intro k p hk
      rw [storeSet_lookup] at hk
      split at hk
      case isTrue hkr =>
        injection hk with hp
        refine ⟨[], r.path, ?_⟩
        rw [← hp,
          singleton_of_length_one_head ((m.lookup r.id).getD [⟨r.id, false⟩])
            ⟨r.id, false⟩ hg.1 hg.2, hkr]
        simp
      case isFalse => exact hinv k p hk
    case isFalse => exact absurd hstep (by simp)
  case isFalse hdir =>
    split at hstep
    case isTrue hg =>
      injection hstep with hm'
      subst hm'
      intro k p hk
      rw [storeSet_lookup] at hk
      split at hk
      case isTrue hkr =>
        injection hk with hp
        obtain ⟨x, rest, hp0eq⟩ :
            ∃ x rest, (m.lookup r.id).getD [(⟨r.id, false⟩ : MergeNode)]
              = x :: rest := by
          cases hcase : (m.lookup r.id).getD [(⟨r.id, false⟩ : MergeNode)] with
          | nil => rw [hcase] at hg; exact absurd hg (by simp)
          | cons x rest => exact ⟨x, rest, rfl⟩
        rw [hp0eq] at hp hg
        simp only [List.head?_cons, Option.some.injEq] at hg
        refine ⟨r.path.reverse, rest, ?_⟩
        rw [← hp, hkr]
        simp [hg]
      case isFalse => exact hinv k p hk
    case isFalse => exact absurd hstep (by simp)

theorem processRecord_keeps_head (m m' : Store) (r : PathRecord)
    (hfwd : r.isRC = false)
    (hinv : ∀ k p, m.lookup k = some p → p.head? = some (⟨k, false⟩ : MergeNode))
    (hstep : processRecord m r = some m') :
    ∀ k p, m'.lookup k = some p → p.head? = some (⟨k, false⟩ : MergeNode) := by
  simp only [processRecord, hfwd, if_pos] at hstep
  split at hstep
  case isTrue hg =>
    injection hstep with hm'
    subst hm'
    intro k p hk
    rw [storeSet_lookup] at hk
    split at hk
    case isTrue hkr =>
      injection hk with hp
      rw [← hp,
        singleton_of_length_one_head ((m.lookup r.id).getD [⟨r.id, false⟩])
          ⟨r.id, false⟩ hg.1 hg.2, hkr]
      simp
    case isFalse => exact hinv k p hk
  case isFalse => exact absurd hstep (by simp)

/-- Claim C2 (amended): after `readPathsFromFile` succeeds, every stored
path *contains* its root `(k, reverse=false)`; its element 0 is that root
provided every consumed record carried sign `+`.  A `-` record prepends its
reversed tail *before* the stored root (line 353), so afterwards element 0 is
the reversed tail's first element, not the root. -/
theorem readPaths_root_structure :
    ∀ records m, readPathsFromFile records = some m →
      (∀ k p, m.lookup k = some p →
        ∃ pre post, p = pre ++ (⟨k, false⟩ : MergeNode) :: post) ∧
      ((∀ r ∈ records, r.isRC = false) →
        ∀ k p, m.lookup k = some p → p.head? = some (⟨k, false⟩ : MergeNode)) := by
  intro records m hread
  constructor
  · exact foldlM_store_inv _ records [] m
      (fun m0 r m1 _ h hs => processRecord_keeps_root m0 m1 r h hs)
      (by intro k p h; simp at h) hread
  · intro hall
    exact foldlM_store_inv _ records [] m
      (fun m0 r m1 hr h hs => processRecord_keeps_head m0 m1 r (hall r hr) h hs)
      (by intro k p h; simp at h) hread

/-- Witness for C2's amended theorem at a concrete forward-only path file. -/
theorem readPaths_root_structure_witness :
    ([⟨7, false⟩, ⟨8, false⟩] : ContigPath).head? = some (⟨7, false⟩ : MergeNode) :=
  (readPaths_root_structure [⟨7, false, [⟨8, false⟩]⟩]
      [(7, [⟨7, false⟩, ⟨8, false⟩])] rfl).2
    (by decide) 7 [⟨7, false⟩, ⟨8, false⟩] rfl

/-- Counterexample to claim C2 as stated: the single record `@ 5- -> 3+`
stores the path `3+ 5+` under key 5, whose element 0 is `(3, false)`, not the
root `(5, false)`. -/
theorem readPaths_root_cex :
    readPathsFromFile [⟨5, true, [⟨3, false⟩]⟩]
        = some [(5, [⟨3, false⟩, ⟨5, false⟩])] ∧
      ([⟨3, false⟩, ⟨5, false⟩] : ContigPath).head?
        ≠ some (⟨5, false⟩ : MergeNode) :=
  ⟨rfl, by decide⟩

/-- Claim C10: a forward record for root `r` passes the assertions iff the
entry for `r` is absent (it is then created as the singleton root) or still
exactly the singleton `[(r, false)]`; an entry already extended by an earlier
record makes the assertion fail (the process aborts instead of appending). -/
theorem processRecord_forward_gate :
    ∀ (m : Store) (r : Nat) (tail : ContigPath),
      ((processRecord m ⟨r, false, tail⟩).isSome = true ↔
        (m.lookup r = none ∨ m.lookup r = some [(⟨r, false⟩ : MergeNode)])) ∧
      (∀ p, m.lookup r = some p → 1 < p.length →
        processRecord m ⟨r, false, tail⟩ = none) := by
  intro m r tail
  have hred : processRecord m ⟨r, false, tail⟩ =
      (if ((m.lookup r).getD [(⟨r, false⟩ : MergeNode)]).length = 1
          ∧ ((m.lookup r).getD [(⟨r, false⟩ : MergeNode)]).head?
              = some (⟨r, false⟩ : MergeNode) then
        some (storeSet m r (((m.lookup r).getD [(⟨r, false⟩ : MergeNode)]) ++ tail))
      else none) := rfl
  rw [hred]
  constructor
  · cases hm : m.lookup r with
    | none => simp
    | some p0 =>
      simp only [Option.getD_some]
      constructor
      · intro h
        split at h
        case isTrue hg =>
          exact Or.inr (congrArg some (singleton_of_length_one_head p0 _ hg.1 hg.2))
        case isFalse hg => exact absurd h (by simp)
      · intro h
        rcases h with h | h
        · exact absurd h (by simp)
        · injection h with h
          subst h
          simp
  · intro p hm hlen
    rw [hm]
    simp only [Option.getD_some]
    have hno : ¬ (p.length = 1 ∧ p.head? = some (⟨r, false⟩ : MergeNode)) := by
      intro hcon
      rw [hcon.1] at hlen
      exact absurd hlen (by decide)
    rw [if_neg hno]

/-- Witness for C10 at a concrete store whose entry for 4 was already
extended: the forward record aborts. -/
theorem processRecord_forward_gate_witness :
    processRecord [(4, [⟨4, false⟩, ⟨6, false⟩])] ⟨4, false, [⟨9, false⟩]⟩ = none :=
  (processRecord_forward_gate [(4, [⟨4, false⟩, ⟨6, false⟩])] 4 [⟨9, false⟩]).2
    [⟨4, false⟩, ⟨6, false⟩] rfl (by decide)

/-! ### Helper lemmas: the splicer -/

theorem reverseComplementSeq_length (s : List Char) :
    (reverseComplementSeq s).length = s.length := by
  simp [reverseComplementSeq]

theorem reverseComplementSeq_ne_nil (s : List Char) (h : s ≠ []) :
    reverseComplementSeq s ≠ [] := by
  intro hc
  apply h
  have hlen := congrArg List.length hc
  rw [reverseComplementSeq_length] at hlen
  exact List.length_eq_zero.mp hlen

/-- `mergeSequences` with `SENSE` direction, written out. -/
theorem mergeSequences_sense_eq (acc other : List Char) (rev : Bool) (k : Nat) :
    mergeSequences acc other .SENSE rev k
      = (if k - 1 ≤ acc.length then
          (if acc.drop (acc.length - (k - 1))
              = (if rev then reverseComplementSeq other else other).take (k - 1) then
            .ok (acc ++ (if rev then reverseComplementSeq other else other).drop (k - 1))
          else .error (.overlapViolation acc other))
        else .error .outOfRange) := rfl

/-- A successful splice step: both windows were long enough and the result
length satisfies the overlap law for one step. -/
theorem mergeSequences_sense_ok (acc other : List Char) (rev : Bool) (k : Nat)
    (s : List Char) (h : mergeSequences acc other .SENSE rev k = .ok s) :
    k - 1 ≤ acc.length ∧ k - 1 ≤ other.length
      ∧ s.length + (k - 1) = acc.length + other.length := by
  rw [mergeSequences_sense_eq] at h
  set slave := if rev then reverseComplementSeq other else other with hslave
  have hslen : slave.length = other.length := by
    rw [hslave]; cases rev <;> simp [reverseComplementSeq_length]
  split at h
  case isTrue h1 =>
    split at h
    case isTrue h2 =>
      injection h with h
      have hlenTake : (slave.take (k - 1)).length = k - 1 := by
        rw [← h2]
        simp only [List.length_drop]
        omega
      have hovslav : k - 1 ≤ slave.length := by
        rw [List.length_take] at hlenTake
        omega
      refine ⟨h1, by omega, ?_⟩
      rw [← h]
      simp only [List.length_append, List.length_drop]
      omega
    case isFalse => exact absurd h (by simp)
  case isFalse => exact absurd h (by simp)

/-- Unfolding `mergeLoop` one step on a successful splice. -/
theorem mergeLoop_cons_ok (cv : List Contig) (k : Nat) (acc : List Char)
    (cov : Nat) (mn : MergeNode) (rest : List MergeNode) (s' : List Char)
    (hseq : (cv.getD mn.id dContig).seq ≠ [])
    (hms : mergeSequences acc (cv.getD mn.id dContig).seq .SENSE mn.isRC k = .ok s') :
    mergeLoop cv k (acc, cov) (mn :: rest)
      = mergeLoop cv k (s', cov + (cv.getD mn.id dContig).coverage) rest := by
  simp only [mergeLoop, if_neg hseq, hms]

/-- Unfolding `mergeLoop` one step on a failing splice. -/
theorem mergeLoop_cons_err (cv : List Contig) (k : Nat) (acc : List Char)
    (cov : Nat) (mn : MergeNode) (rest : List MergeNode) (e : SpliceError)
    (hseq : (cv.getD mn.id dContig).seq ≠ [])
    (hms : mergeSequences acc (cv.getD mn.id dContig).seq .SENSE mn.isRC k = .error e) :
    mergeLoop cv k (acc, cov) (mn :: rest) = .error e := by
  simp only [mergeLoop, if_neg hseq, hms]

/-- If every window along `rest` matches, `mergeLoop` succeeds, returns the
summed coverage, and the final length satisfies the overlap law. -/
theorem mergeLoop_ok_of_windows (cv : List Contig) (k : Nat) :
    ∀ (rest : List MergeNode) (acc : List Char) (cov : Nat),
      (∀ mn ∈ rest, (cv.getD mn.id dContig).seq ≠ []) →
      spliceWindowsGo cv k acc rest = true →
      ∃ s, mergeLoop cv k (acc, cov) rest
          = .ok (s, cov + (rest.map (fun mn => (cv.getD mn.id dContig).coverage)).sum)
        ∧ s.length + rest.length * (k - 1)
          = acc.length + (rest.map (fun mn => (cv.getD mn.id dContig).seq.length)).sum
  | [], acc, cov, _, _ => ⟨acc, by simp [mergeLoop], by simp⟩
  | mn :: rest, acc, cov, hne, hw => by
    have hseq : (cv.getD mn.id dContig).seq ≠ [] := hne mn (List.mem_cons_self _ _)
    simp only [spliceWindowsGo, Bool.and_eq_true, decide_eq_true_eq] at hw
    set slave := if mn.isRC then reverseComplementSeq (cv.getD mn.id dContig).seq
                 else (cv.getD mn.id dContig).seq with hslave
    obtain ⟨⟨h1, h2⟩, hw'⟩ := hw
    have hslen : slave.length = (cv.getD mn.id dContig).seq.length := by
      rw [hslave]; cases mn.isRC <;> simp [reverseComplementSeq_length]
    have hlenTake : (slave.take (k - 1)).length = k - 1 := by
      rw [← h2]
      simp only [List.length_drop]
      omega
    have hovslav : k - 1 ≤ slave.length := by
      rw [List.length_take] at hlenTake
      omega
    obtain ⟨s, hs, hlen⟩ := mergeLoop_ok_of_windows cv k rest
      (acc ++ slave.drop (k - 1)) (cov + (cv.getD mn.id dContig).coverage)
      (fun x hx => hne x (List.mem_cons_of_mem _ hx)) hw'
    have hms : mergeSequences acc (cv.getD mn.id dContig).seq .SENSE mn.isRC k
        = .ok (acc ++ slave.drop (k - 1)) := by
      rw [mergeSequences_sense_eq, if_pos h1, ← hslave, if_pos h2]
    refine ⟨s, ?_, ?_⟩
    · rw [mergeLoop_cons_ok cv k acc cov mn rest _ hseq hms, hs]
      simp only [List.map_cons, List.sum_cons]
      rw [Nat.add_assoc]
    · simp only [List.map_cons, List.sum_cons, List.length_cons]
      have hacclen : (acc ++ slave.drop (k - 1)).length
          = acc.length + (slave.length - (k - 1)) := by
        simp [List.length_append, List.length_drop]
      rw [Nat.add_mul, Nat.one_mul]
      omega

/-- `mergeLoop` succeeds exactly when every window along `rest` matches. -/
theorem mergeLoop_isOk_iff (cv : List Contig) (k : Nat) :
    ∀ (rest : List MergeNode) (acc : List Char) (cov : Nat),
      (∀ mn ∈ rest, (cv.getD mn.id dContig).seq ≠ []) →
      ((mergeLoop cv k (acc, cov) rest).isOk = true
        ↔ spliceWindowsGo cv k acc rest = true)
  | [], _, _, _ => by
    simp [mergeLoop, spliceWindowsGo, Except.isOk, Except.toBool]
  | mn :: rest, acc, cov, hne => by
    have hseq : (cv.getD mn.id dContig).seq ≠ [] := hne mn (List.mem_cons_self _ _)
    simp only [mergeLoop, if_neg hseq, spliceWindowsGo]
    set slave := if mn.isRC then reverseComplementSeq (cv.getD mn.id dContig).seq
                 else (cv.getD mn.id dContig).seq with hslave
    rw [mergeSequences_sense_eq, ← hslave]
    by_cases h1 : k - 1 ≤ acc.length
    · rw [if_pos h1]
      by_cases h2 : acc.drop (acc.length - (k - 1)) = slave.take (k - 1)
      · rw [if_pos h2]
        have ih := mergeLoop_isOk_iff cv k rest (acc ++ slave.drop (k - 1))
          (cov + (cv.getD mn.id dContig).coverage)
          (fun x hx => hne x (List.mem_cons_of_mem _ hx))
        simpa [h1, h2] using ih
      · rw [if_neg h2]
        simp [h1, h2, Except.isOk, Except.toBool]
    · rw [if_neg h1]
      simp [h1, Except.isOk, Except.toBool]

/-- Claim C1: for every non-empty path whose orientation-applied sequences
jointly satisfy the `k-1` overlap (and whose contig sequences are non-empty,
as `mergePath` asserts), the splicer returns a sequence of exactly
`(sum of contig sequence lengths) - (n-1)*(k-1)` symbols together with the
sum of the contigs' coverages. -/
theorem splicer_overlap_law :
    ∀ (cv : List Contig) (path : ContigPath) (k : Nat),
      1 ≤ k → path ≠ [] →
      (∀ mn ∈ path, (cv.getD mn.id dContig).seq ≠ []) →
      spliceWindowsOK cv path k = true →
      (mergePathSpliced cv path k).map (fun r => (r.1.length, r.2))
        = .ok ((path.map (fun mn => (cv.getD mn.id dContig).seq.length)).sum
                 - (path.length - 1) * (k - 1),
               (path.map (fun mn => (cv.getD mn.id dContig).coverage)).sum) := by
  intro cv path k _ hpath hne hw
  match path, hpath with
  | firstNode :: rest, _ =>
    have hfseq : (cv.getD firstNode.id dContig).seq ≠ [] :=
      hne firstNode (List.mem_cons_self _ _)
    set seed := if firstNode.isRC then reverseComplementSeq (cv.getD firstNode.id dContig).seq
                else (cv.getD firstNode.id dContig).seq with hseed
    have hseedne : seed ≠ [] := by
      rw [hseed]
      cases firstNode.isRC
      · exact hfseq
      · exact reverseComplementSeq_ne_nil _ hfseq
    have hseedlen : seed.length = (cv.getD firstNode.id dContig).seq.length := by
      rw [hseed]
      cases firstNode.isRC
      · rfl
      · exact reverseComplementSeq_length _
    simp only [spliceWindowsOK, ← hseed] at hw
    obtain ⟨s, hs, hlen⟩ := mergeLoop_ok_of_windows cv k rest seed
      (cv.getD firstNode.id dContig).coverage
      (fun x hx => hne x (List.mem_cons_of_mem _ hx)) hw
    simp only [mergePathSpliced, ← hseed, if_neg hseedne]
    rw [hs]
    simp only [Except.map, List.map_cons, List.sum_cons, List.length_cons,
      Nat.add_sub_cancel]
    congr 2
    omega

/-- Witness for C1: two concrete overlapping contigs with `k = 3` splice into
`5 + 5 - 2 = 8` symbols with coverage `5 + 7 = 12`. -/
theorem splicer_overlap_law_witness :
    (mergePathSpliced
        [⟨0, ['A', 'C', 'G', 'T', 'A'], 5⟩, ⟨1, ['T', 'A', 'G', 'G', 'C'], 7⟩]
        [⟨0, false⟩, ⟨1, false⟩] 3).map (fun r => (r.1.length, r.2))
      = .ok ((([⟨0, false⟩, ⟨1, false⟩] : ContigPath).map
                (fun mn => (([⟨0, ['A', 'C', 'G', 'T', 'A'], 5⟩,
                              ⟨1, ['T', 'A', 'G', 'G', 'C'], 7⟩] : List Contig).getD
                    mn.id dContig).seq.length)).sum
               - (([⟨0, false⟩, ⟨1, false⟩] : ContigPath).length - 1) * (3 - 1),
             (([⟨0, false⟩, ⟨1, false⟩] : ContigPath).map
                (fun mn => (([⟨0, ['A', 'C', 'G', 'T', 'A'], 5⟩,
                              ⟨1, ['T', 'A', 'G', 'G', 'C'], 7⟩] : List Contig).getD
                    mn.id dContig).coverage)).sum) :=
  splicer_overlap_law
    [⟨0, ['A', 'C', 'G', 'T', 'A'], 5⟩, ⟨1, ['T', 'A', 'G', 'G', 'C'], 7⟩]
    [⟨0, false⟩, ⟨1, false⟩] 3 (by decide) (by decide) (by decide) (by decide)

/-- Claim C7: splicing a (non-empty, non-degenerate) path completes without
failure exactly when every adjacent `k-1` window matches; and whenever a
defined window differs, `mergeSequences` fails with an `overlapViolation`
diagnostic naming both sequences. -/
theorem splicer_overlap_violation :
    ∀ (cv : List Contig) (path : ContigPath) (k : Nat),
      1 ≤ k → path ≠ [] →
      (∀ mn ∈ path, (cv.getD mn.id dContig).seq ≠ []) →
      (((mergePathSpliced cv path k).isOk = true)
          ↔ spliceWindowsOK cv path k = true) ∧
      (∀ acc other rev,
        k - 1 ≤ acc.length →
        acc.drop (acc.length - (k - 1))
            ≠ (if rev then reverseComplementSeq other else other).take (k - 1) →
        mergeSequences acc other .SENSE rev k
          = .error (.overlapViolation acc other)) := by
  intro cv path k _ hpath hne
  constructor
  · match path, hpath with
    | firstNode :: rest, _ =>
      have hfseq : (cv.getD firstNode.id dContig).seq ≠ [] :=
        hne firstNode (List.mem_cons_self _ _)
      set seed := if firstNode.isRC then reverseComplementSeq (cv.getD firstNode.id dContig).seq
                  else (cv.getD firstNode.id dContig).seq with hseed
      have hseedne : seed ≠ [] := by
        rw [hseed]
        cases firstNode.isRC
        · exact hfseq
        · exact reverseComplementSeq_ne_nil _ hfseq
      simp only [mergePathSpliced, spliceWindowsOK, ← hseed, if_neg hseedne]
      exact mergeLoop_isOk_iff cv k rest seed (cv.getD firstNode.id dContig).coverage
        (fun x hx => hne x (List.mem_cons_of_mem _ hx))
  · intro acc other rev h1 h2
    rw [mergeSequences_sense_eq, if_pos h1, if_neg h2]

/-- Witness for C7 at a concrete mismatching pair: the splice of the second
demo path fails, the window predicate is false, and `mergeSequences` names
both sequences in its diagnostic. -/
theorem splicer_overlap_violation_witness :
    mergeSequences ['A', 'C', 'G'] ['T', 'T', 'A'] .SENSE false 3
      = .error (.overlapViolation ['A', 'C', 'G'] ['T', 'T', 'A']) :=
  (splicer_overlap_violation [⟨0, ['A', 'C', 'G'], 1⟩] [⟨0, false⟩] 3
      (by decide) (by decide) (by decide)).2
    ['A', 'C', 'G'] ['T', 'T', 'A'] false (by decide) (by decide)

/-! ### Helper lemmas: the node and path orders -/

theorem nodeLT_irrefl (a : MergeNode) : nodeLT a a = false := by
  obtain ⟨ia, ra⟩ := a
  cases ra <;> simp [nodeLT]

theorem nodeLT_true_iff (a b : MergeNode) :
    nodeLT a b = true
      ↔ (a.id < b.id ∨ (a.id = b.id ∧ a.isRC = false ∧ b.isRC = true)) := by
  obtain ⟨ia, ra⟩ := a
  obtain ⟨ib, rb⟩ := b
  cases ra <;> cases rb <;> simp [nodeLT]

theorem nodeLT_connex (a b : MergeNode) (h1 : nodeLT a b = false)
    (h2 : nodeLT b a = false) : a = b := by
  obtain ⟨ia, ra⟩ := a
  obtain ⟨ib, rb⟩ := b
  have g1 : ¬ (ia < ib ∨ (ia = ib ∧ ra = false ∧ rb = true)) := by
    rw [show (ia < ib ∨ (ia = ib ∧ ra = false ∧ rb = true))
        = (nodeLT ⟨ia, ra⟩ ⟨ib, rb⟩ = true) from
      (propext (nodeLT_true_iff ⟨ia, ra⟩ ⟨ib, rb⟩)).symm]
    simp [h1]
  have g2 : ¬ (ib < ia ∨ (ib = ia ∧ rb = false ∧ ra = true)) := by
    rw [show (ib < ia ∨ (ib = ia ∧ rb = false ∧ ra = true))
        = (nodeLT ⟨ib, rb⟩ ⟨ia, ra⟩ = true) from
      (propext (nodeLT_true_iff ⟨ib, rb⟩ ⟨ia, ra⟩)).symm]
    simp [h2]
  have hid : ia = ib := by
    rcases Nat.lt_trichotomy ia ib with h | h | h
    · exact absurd (Or.inl h) g1
    · exact h
    · exact absurd (Or.inl h) g2
  subst hid
  have hrb : ra = rb := by
    cases ra <;> cases rb
    · rfl
    · exact absurd (Or.inr ⟨rfl, rfl, rfl⟩) g1
    · exact absurd (Or.inr ⟨rfl, rfl, rfl⟩) g2
    · rfl
  rw [hrb]

theorem nodeLT_trans (a b c : MergeNode) (h1 : nodeLT a b = true)
    (h2 : nodeLT b c = true) : nodeLT a c = true := by
  rw [nodeLT_true_iff] at h1 h2 ⊢
  rcases h1 with h1 | ⟨he1, hra, hrb⟩
  · rcases h2 with h2 | ⟨he2, hrb2, hrc⟩
    · exact Or.inl (by omega)
    · exact Or.inl (by omega)
  · rcases h2 with h2 | ⟨he2, hrb2, hrc⟩
    · exact Or.inl (by omega)
    · rw [hrb] at hrb2
      exact absurd hrb2 (by decide)

theorem pathLE_total : ∀ x y : ContigPath, pathLE x y = true ∨ pathLE y x = true
  | [], _ => Or.inl rfl
  | _ :: _, [] => Or.inr rfl
  | a :: as, b :: bs => by
    by_cases hab : nodeLT a b = true
    · left; simp [pathLE, hab]
    · by_cases hba : nodeLT b a = true
      · right; simp [pathLE, hba]
      · have hab' : nodeLT a b = false := by simpa using hab
        have hba' : nodeLT b a = false := by simpa using hba
        rcases pathLE_total as bs with h | h
        · left; simp [pathLE, hab', hba', h]
        · right; simp [pathLE, hab', hba', h]

theorem pathLE_trans : ∀ x y z : ContigPath,
    pathLE x y = true → pathLE y z = true → pathLE x z = true
  | [], _, _, _, _ => rfl
  | _ :: _, [], _, hxy, _ => by simp [pathLE] at hxy
  | _ :: _, _ :: _, [], _, hyz => by simp [pathLE] at hyz
  | a :: as, b :: bs, c :: cs, hxy, hyz => by
    simp only [pathLE] at hxy hyz ⊢
    by_cases hab : nodeLT a b = true
    · by_cases hbc : nodeLT b c = true
      · rw [if_pos (nodeLT_trans a b c hab hbc)]
      · by_cases hcb : nodeLT c b = true
        · rw [if_neg (by simpa using hbc), if_pos hcb] at hyz
          exact absurd hyz (by simp)
        · have hb : b = c := nodeLT_connex b c (by simpa using hbc) (by simpa using hcb)
          rw [← hb, if_pos hab]
    · by_cases hba : nodeLT b a = true
      · rw [if_neg hab, if_pos hba] at hxy
        exact absurd hxy (by simp)
      · have hab' : a = b := nodeLT_connex a b (by simpa using hab) (by simpa using hba)
        subst hab'
        rw [if_neg hab, if_neg hba] at hxy
        by_cases hac : nodeLT a c = true
        · rw [if_pos hac]
        · by_cases hca : nodeLT c a = true
          · rw [if_neg hac, if_pos hca] at hyz
            exact absurd hyz (by simp)
          · rw [if_neg hac, if_neg hca] at hyz
            rw [if_neg hac, if_neg hca]
            exact pathLE_trans as bs cs hxy hyz

theorem dedupByAddr_go_nodup :
    ∀ (l acc : List (Nat × ContigPath)),
      (acc.map Prod.fst).Nodup →
      ((l.foldl
          (fun acc e =>
            if (acc.map Prod.fst).contains e.1 then acc else acc ++ [e])
          acc).map Prod.fst).Nodup
  | [], _, h => h
  | e :: l, acc, h => by
    simp only [List.foldl_cons]
    by_cases hc : (acc.map Prod.fst).contains e.1 = true
    · rw [if_pos hc]
      exact dedupByAddr_go_nodup l acc h
    · rw [if_neg hc]
      refine dedupByAddr_go_nodup l (acc ++ [e]) ?_
      have hmem : e.1 ∉ acc.map Prod.fst := by simpa using hc
      simp only [List.map_append, List.map_cons, List.map_nil]
      exact List.Nodup.append h (List.nodup_singleton _)
        (by simpa [List.disjoint_singleton] using hmem)

/-- Claim C5 (amended): the emission step of lines 247-259 deduplicates the
stored paths by *storage identity* (the `set<ContigPath*>` compares
pointers), not by path value, and then sorts the collected values
lexicographically.  The output is a sorted permutation of the
identity-deduplicated values with pairwise distinct addresses; two distinct
addresses holding equal path values are both emitted. -/
theorem unique_paths_emission :
    ∀ entries : List (Nat × ContigPath),
      List.Sorted (fun x y => pathLE x y = true) (uniquePathsOf entries) ∧
      (uniquePathsOf entries).Perm ((dedupByAddr entries).map Prod.snd) ∧
      ((dedupByAddr entries).map Prod.fst).Nodup := by
  intro entries
  haveI : IsTotal ContigPath (fun x y => pathLE x y = true) := ⟨pathLE_total⟩
  haveI : IsTrans ContigPath (fun x y => pathLE x y = true) :=
    ⟨fun x y z => pathLE_trans x y z⟩
  refine ⟨List.sorted_insertionSort _ _, List.perm_insertionSort _ _, ?_⟩
  exact dedupByAddr_go_nodup entries [] (by simp)

/-- Counterexample to claim C5 as stated: two distinct storage addresses
holding equal path values survive the pointer-based deduplication, so the
emitted list contains the same path value twice. -/
theorem unique_paths_value_dup_cex :
    uniquePathsOf [(1, [⟨0, false⟩]), (2, [⟨0, false⟩])]
        = [[⟨0, false⟩], [⟨0, false⟩]] ∧
      ¬ (uniquePathsOf [(1, [⟨0, false⟩]), (2, [⟨0, false⟩])]).Nodup := by
  exact ⟨rfl, by decide⟩

/-! ### Helper lemmas: FASTA id seeding -/

theorem fastaEmit_go_ids (cv : List Contig) (k : Nat) :
    ∀ (paths : List ContigPath) (acc : List (Nat × (List Char × Nat))) (n : Nat)
      (out : List (Nat × (List Char × Nat)) × Nat),
      (paths.foldlM
        (fun (acc : List (Nat × (List Char × Nat)) × Nat) p =>
          (mergePathSpliced cv p k).map
            (fun r => (acc.1 ++ [(acc.2, r)], acc.2 + 1)))
        (acc, n)) = .ok out →
      out.1.map Prod.fst = acc.map Prod.fst ++ List.range' n paths.length
  | [], acc, n, out, h => by
    simp only [List.foldlM_nil] at h
    injection h with h
    rw [← h]
    simp [List.range']
  | p :: paths, acc, n, out, h => by
    simp only [List.foldlM_cons] at h
    cases hm : mergePathSpliced cv p k with
    | error e =>
      rw [hm] at h
      have h2 : (Except.error e : Except SpliceError
          (List (Nat × (List Char × Nat)) × Nat)) = .ok out := h
      exact Except.noConfusion h2
    | ok r =>
      rw [hm] at h
      have h' : (paths.foldlM
          (fun (acc : List (Nat × (List Char × Nat)) × Nat) p =>
            (mergePathSpliced cv p k).map
              (fun r => (acc.1 ++ [(acc.2, r)], acc.2 + 1)))
          (acc ++ [(n, r)], n + 1)) = .ok out := h
      have := fastaEmit_go_ids cv k paths (acc ++ [(n, r)]) (n + 1) out h'
      rw [this]
      simp only [List.map_append, List.map_cons, List.map_nil, List.length_cons,
        List.range'_succ]
      simp

/-- Claim C9 (amended): the FASTA record ids form the arithmetic progression
seeded *at* the integer parse of the last pre-existing contig's name
(`id++` emits the counter before incrementing), incrementing by one per
record; with dense numeric names that seed *equals* the highest pre-existing
contig id, not one past it. -/
theorem fasta_id_seeding :
    ∀ (cv : List Contig) (paths : List ContigPath) (k : Nat)
      (recs : List (Nat × (List Char × Nat))),
      fastaEmit cv paths k = .ok recs →
      (recs.map Prod.fst = List.range' (seedFastaId cv) paths.length) ∧
      (cv.map Contig.name = List.range cv.length → cv ≠ [] →
        seedFastaId cv = highestContigId cv) := by
  intro cv paths k recs hemit
  constructor
  · unfold fastaEmit at hemit
    cases hm : paths.foldlM
        (fun (acc : List (Nat × (List Char × Nat)) × Nat) p =>
          (mergePathSpliced cv p k).map
            (fun r => (acc.1 ++ [(acc.2, r)], acc.2 + 1)))
        ([], seedFastaId cv) with
    | error e =>
      rw [hm] at hemit
      have h2 : (Except.error e : Except SpliceError
          (List (Nat × (List Char × Nat)))) = .ok recs := hemit
      exact Except.noConfusion h2
    | ok out =>
      rw [hm] at hemit
      simp only [Except.map] at hemit
      injection hemit with hemit
      rw [← hemit]
      simpa using fastaEmit_go_ids cv k paths [] (seedFastaId cv) out hm
  · intro hdense hne
    have hlen1 : 1 ≤ cv.length := by
      cases cv
      · exact absurd rfl hne
      · simp
    have hlt : cv.length - 1 < cv.length := by omega
    have hlt2 : cv.length - 1 < (cv.map Contig.name).length := by
      simpa using hlt
    have hlt3 : cv.length - 1 < (List.range cv.length).length := by
      simpa using hlt
    have hseed : seedFastaId cv = cv.length - 1 := by
      unfold seedFastaId
      have h1 : (cv.getD (cv.length - 1) dContig).name
          = (cv.map Contig.name).getD (cv.length - 1) 0 := by
        rw [List.getD_eq_getElem?_getD, List.getD_eq_getElem?_getD,
          List.getElem?_eq_getElem hlt, List.getElem?_eq_getElem hlt2]
        simp
      rw [h1, hdense, List.getD_eq_getElem?_getD, List.getElem?_eq_getElem hlt3]
      simp
    have hmax : ∀ n : Nat, (List.range n).foldr max 0 = n - 1 := by
      have haux : ∀ (l : List Nat) (a : Nat), l.foldr max a = max (l.foldr max 0) a := by
        intro l
        induction l with
        | nil => intro a; simp
        | cons x l ih =>
          intro a
          simp only [List.foldr_cons]
          rw [ih a]
          omega
      intro n
      induction n with
      | zero => simp
      | succ n ihn =>
        rw [List.range_succ, List.foldr_append]
        simp only [List.foldr_cons, List.foldr_nil]
        rw [haux]
        omega
    unfold highestContigId
    rw [hdense, hmax, hseed]

/-- Counterexample to claim C9 as stated: with three pre-existing contigs
named 0,1,2 (highest id 2), the first merged record's id is 2, not 2 + 1. -/
theorem fasta_id_seed_cex :
    (fastaEmit [⟨0, ['A', 'C', 'G'], 1⟩, ⟨1, ['C', 'G', 'T'], 2⟩,
        ⟨2, ['G', 'T', 'A'], 3⟩] [[⟨0, false⟩]] 3).toOption.map
        (fun l => l.map Prod.fst) = some [2] ∧
      highestContigId [⟨0, ['A', 'C', 'G'], 1⟩, ⟨1, ['C', 'G', 'T'], 2⟩,
        ⟨2, ['G', 'T', 'A'], 3⟩] = 2 ∧
      (2 : Nat) ≠ 2 + 1 := by
  exact ⟨rfl, rfl, by decide⟩

/-- Witness for C9's amended theorem at a concrete input: two merged records
get ids 2 and 3, seeded at the last contig's numeric name. -/
theorem fasta_id_seeding_witness :
    ([(2, (['A', 'C', 'G'], 1)), (3, (['C', 'G', 'T'], 2))].map Prod.fst
        = List.range' (seedFastaId [⟨0, ['A', 'C', 'G'], 1⟩, ⟨1, ['C', 'G', 'T'], 2⟩,
            ⟨2, ['G', 'T', 'A'], 3⟩]) 2) ∧
      (([⟨0, ['A', 'C', 'G'], 1⟩, ⟨1, ['C', 'G', 'T'], 2⟩,
          ⟨2, ['G', 'T', 'A'], 3⟩] : List Contig).map Contig.name
            = List.range 3 → ([⟨0, ['A', 'C', 'G'], 1⟩, ⟨1, ['C', 'G', 'T'], 2⟩,
          ⟨2, ['G', 'T', 'A'], 3⟩] : List Contig) ≠ [] →
        seedFastaId [⟨0, ['A', 'C', 'G'], 1⟩, ⟨1, ['C', 'G', 'T'], 2⟩,
            ⟨2, ['G', 'T', 'A'], 3⟩]
          = highestContigId [⟨0, ['A', 'C', 'G'], 1⟩, ⟨1, ['C', 'G', 'T'], 2⟩,
              ⟨2, ['G', 'T', 'A'], 3⟩]) :=
  fasta_id_seeding [⟨0, ['A', 'C', 'G'], 1⟩, ⟨1, ['C', 'G', 'T'], 2⟩,
      ⟨2, ['G', 'T', 'A'], 3⟩]
    [[⟨0, false⟩], [⟨1, false⟩]] 3
    [(2, (['A', 'C', 'G'], 1)), (3, (['C', 'G', 'T'], 2))] rfl

/-! ### Helper lemmas: the consistency engine -/

theorem reverseComplementPath_involutive (p : ContigPath) :
    reverseComplementPath (reverseComplementPath p) = p := by
  unfold reverseComplementPath
  rw [List.map_reverse, List.reverse_reverse, List.map_map]
  have : ((fun (n : MergeNode) => (⟨n.id, !n.isRC⟩ : MergeNode))
      ∘ (fun (n : MergeNode) => (⟨n.id, !n.isRC⟩ : MergeNode))) = id := by
    funext n
    simp
  rw [this, List.map_id]

theorem extractMinCoordSet_mem (anchor : Nat) (path : ContigPath) (i : Nat)
    (h : i ∈ extractMinCoordSet anchor path) : i < path.length := by
  unfold extractMinCoordSet at h
  have := List.mem_reverse.mp (List.mem_of_mem_filter h)
  exact List.mem_range.mp this

theorem lowScan_spec (p1 p2 : ContigPath) :
    ∀ (s1 s2 a1 a2 : Nat), lowScan p1 p2 s1 s2 = some (a1, a2) →
      ∃ n, n ≤ s1 ∧ n ≤ s2 ∧ a1 = s1 - n ∧ a2 = s2 - n ∧ (a1 = 0 ∨ a2 = 0) ∧
        ∀ t, t ≤ n → (p1.getD (s1 - t) dmn).id = (p2.getD (s2 - t) dmn).id
  | 0, s2, a1, a2, h => by
    simp only [lowScan] at h
    split at h
    case isTrue => exact absurd h (by simp)
    case isFalse hid =>
      injection h with h
      injection h with h1 h2
      refine ⟨0, by omega, by omega, by omega, by omega, Or.inl (by omega), ?_⟩
      intro t ht
      have ht0 : t = 0 := by omega
      subst ht0
      simpa using not_ne_iff.mp hid
  | s1 + 1, 0, a1, a2, h => by
    simp only [lowScan] at h
    split at h
    case isTrue => exact absurd h (by simp)
    case isFalse hid =>
      injection h with h
      injection h with h1 h2
      refine ⟨0, by omega, by omega, by omega, by omega, Or.inr (by omega), ?_⟩
      intro t ht
      have ht0 : t = 0 := by omega
      subst ht0
      simpa using not_ne_iff.mp hid
  | s1 + 1, s2 + 1, a1, a2, h => by
    simp only [lowScan] at h
    split at h
    case isTrue => exact absurd h (by simp)
    case isFalse hid =>
      obtain ⟨n, hn1, hn2, ha1, ha2, hb, hm⟩ := lowScan_spec p1 p2 s1 s2 a1 a2 h
      refine ⟨n + 1, by omega, by omega, by omega, by omega, hb, ?_⟩
      intro t ht
      match t with
      | 0 => simpa using not_ne_iff.mp hid
      | u + 1 =>
        have e1 : s1 + 1 - (u + 1) = s1 - u := by omega
        have e2 : s2 + 1 - (u + 1) = s2 - u := by omega
        rw [e1, e2]
        exact hm u (by omega)

theorem highScanF_unfold (p1 p2 : ContigPath) (max1 max2 fuel e1 e2 : Nat) :
    highScanF p1 p2 max1 max2 fuel e1 e2
      = (if (p1.getD e1 dmn).id ≠ (p2.getD e2 dmn).id then none
        else if max1 ≤ e1 ∨ e2 = max2 then some (e1, e2)
        else
          match fuel with
          | 0 => none
          | f + 1 => highScanF p1 p2 max1 max2 f (e1 + 1) (e2 + 1)) := by
  cases fuel <;> simp only [highScanF]

theorem highScanF_spec (p1 p2 : ContigPath) (max1 max2 : Nat) :
    ∀ (fuel e1 e2 b1 b2 : Nat),
      e1 ≤ max1 → e2 ≤ max2 →
      highScanF p1 p2 max1 max2 fuel e1 e2 = some (b1, b2) →
      ∃ m, b1 = e1 + m ∧ b2 = e2 + m ∧ b1 ≤ max1 ∧ b2 ≤ max2
        ∧ (b1 = max1 ∨ b2 = max2)
        ∧ ∀ t, t ≤ m → (p1.getD (e1 + t) dmn).id = (p2.getD (e2 + t) dmn).id
  | fuel, e1, e2, b1, b2, he1, he2, h => by
    rw [highScanF_unfold] at h
    split at h
    case isTrue => exact absurd h (by simp)
    case isFalse hid =>
      split at h
      case isTrue hstop =>
        injection h with h
        injection h with h1 h2
        refine ⟨0, by omega, by omega, by omega, by omega, ?_, ?_⟩
        · rcases hstop with hstop | hstop
          · exact Or.inl (by omega)
          · exact Or.inr (by omega)
        · intro t ht
          have ht0 : t = 0 := by omega
          subst ht0
          simpa using not_ne_iff.mp hid
      case isFalse hstop =>
        match fuel, h with
        | 0, h => exact absurd h (by simp)
        | f + 1, h =>
          have hlt1 : e1 < max1 := by
            rcases Nat.lt_or_ge e1 max1 with hlt | hge
            · exact hlt
            · exact absurd (Or.inl hge) hstop
          have hlt2 : e2 < max2 := by
            rcases Nat.lt_or_ge e2 max2 with hlt | hge
            · exact hlt
            · have : e2 = max2 := by omega
              exact absurd (Or.inr this) hstop
          obtain ⟨m, hb1, hb2, hbm1, hbm2, hbd, hm⟩ :=
            highScanF_spec p1 p2 max1 max2 f (e1 + 1) (e2 + 1) b1 b2
              (by omega) (by omega) h
          refine ⟨m + 1, by omega, by omega, hbm1, hbm2, hbd, ?_⟩
          intro t ht
          match t with
          | 0 => simpa using not_ne_iff.mp hid
          | u + 1 =>
            have e1' : e1 + (u + 1) = (e1 + 1) + u := by omega
            have e2' : e2 + (u + 1) = (e2 + 1) + u := by omega
            rw [e1', e2']
            exact hm u (by omega)

theorem highScan_spec (p1 p2 : ContigPath) (max1 max2 e1 e2 b1 b2 : Nat)
    (he1 : e1 ≤ max1) (he2 : e2 ≤ max2)
    (h : highScan p1 p2 max1 max2 e1 e2 = some (b1, b2)) :
    ∃ m, b1 = e1 + m ∧ b2 = e2 + m ∧ b1 ≤ max1 ∧ b2 ≤ max2
      ∧ (b1 = max1 ∨ b2 = max2)
      ∧ ∀ t, t ≤ m → (p1.getD (e1 + t) dmn).id = (p2.getD (e2 + t) dmn).id :=
  highScanF_spec p1 p2 max1 max2 (max1 - e1) e1 e2 b1 b2 he1 he2 h

theorem insertAlignment_mem (al : List (Nat × PathConsistencyStats))
    (count : Nat) (fresh : PathConsistencyStats) (e : Nat × PathConsistencyStats)
    (he : e ∈ insertAlignment al count fresh) :
    e ∈ al ∨ e = (count, fresh)
      ∨ ∃ s0, (count, s0) ∈ al
          ∧ e = (count, ⟨s0.startP1, s0.endP1, s0.startP2, s0.endP2, s0.flipped, true⟩) := by
  unfold insertAlignment at he
  split at he
  case h_1 =>
    rcases List.mem_append.mp he with h | h
    · exact Or.inl h
    · exact Or.inr (Or.inl (by simpa using h))
  case h_2 =>
    obtain ⟨x, hx, hxe⟩ := List.mem_map.mp he
    obtain ⟨x1, x2⟩ := x
    by_cases hc : x1 = count
    · subst hc
      rw [if_pos rfl] at hxe
      refine Or.inr (Or.inr ⟨x2, hx, ?_⟩)
      rw [← hxe]
    · rw [if_neg hc] at hxe
      rw [← hxe]
      exact Or.inl hx

theorem biggestAlignment_go_mem :
    ∀ (al : List (Nat × PathConsistencyStats))
      (acc : Option (Nat × PathConsistencyStats)) (e : Nat × PathConsistencyStats),
      al.foldl
        (fun acc e =>
          match acc with
          | none => some e
          | some b => if b.1 < e.1 then some e else some b)
        acc = some e →
      e ∈ al ∨ acc = some e
  | [], acc, e, h => Or.inr h
  | x :: al, acc, e, h => by
    simp only [List.foldl_cons] at h
    rcases biggestAlignment_go_mem al _ e h with hmem | hacc
    · exact Or.inl (List.mem_cons_of_mem _ hmem)
    · match acc, hacc with
      | none, hacc =>
        have hacc2 : some x = some e := hacc
        injection hacc2 with hacc2
        exact Or.inl (by rw [← hacc2]; exact List.mem_cons_self _ _)
      | some b, hacc =>
        have hacc2 : (if b.1 < x.1 then some x else some b) = some e := hacc
        by_cases hlt : b.1 < x.1
        · rw [if_pos hlt] at hacc2
          injection hacc2 with hacc2
          exact Or.inl (by rw [← hacc2]; exact List.mem_cons_self _ _)
        · rw [if_neg hlt] at hacc2
          exact Or.inr hacc2

theorem biggestAlignment_mem (al : List (Nat × PathConsistencyStats))
    (e : Nat × PathConsistencyStats) (h : biggestAlignment al = some e) :
    e ∈ al := by
  rcases biggestAlignment_go_mem al none e h with hmem | hacc
  · exact hmem
  · exact absurd hacc (by simp)

theorem StatsOK_markDup (path1 p2orig : ContigPath) (max1 max2 count : Nat)
    (s0 : PathConsistencyStats)
    (h : StatsOK path1 p2orig max1 max2 (count, s0)) :
    StatsOK path1 p2orig max1 max2
      (count, ⟨s0.startP1, s0.endP1, s0.startP2, s0.endP2, s0.flipped, true⟩) := by
  simp only [StatsOK] at h ⊢
  exact h

/-- One seed iteration preserves the state invariant. -/
theorem seedStep_StateOK (path1 p2orig : ContigPath) (max1 max2 : Nat)
    (st : SeedState) (c1 c2 : Nat) (hc1 : c1 ≤ max1) (hc2 : c2 ≤ max2)
    (hst : StateOK path1 p2orig max1 max2 st) :
    StateOK path1 p2orig max1 max2 (seedStep path1 max1 max2 st c1 c2) := by
  obtain ⟨hp2, hal⟩ := hst
  simp only [seedStep]
  set s2a := if st.flipped then max2 - c2 else c2 with hs2adef
  have hs2a : s2a ≤ max2 := by
    rw [hs2adef]
    split <;> omega
  by_cases hnf : (path1.getD c1 dmn).isRC ≠ (st.path2.getD s2a dmn).isRC
  case pos =>
    rw [if_pos hnf, if_pos hnf, if_pos hnf]
    set P2 := reverseComplementPath st.path2 with hP2def
    set FL := !st.flipped with hFLdef
    set S2 := max2 - s2a with hS2def
    have hpath2' : P2 = (if FL then reverseComplementPath p2orig else p2orig) := by
      rw [hP2def, hFLdef, hp2]
      cases st.flipped
      · simp
      · simp [reverseComplementPath_involutive]
    have hS2 : S2 ≤ max2 := by omega
    cases hlow : lowScan path1 P2 c1 S2 with
    | none =>
      refine ⟨hpath2', ?_⟩
      intro e he
      exact hal e he
    | some pl =>
      obtain ⟨a1, a2⟩ := pl
      cases hhigh : highScan path1 P2 max1 max2 c1 S2 with
      | none =>
        refine ⟨hpath2', ?_⟩
        intro e he
        exact hal e he
      | some ph =>
        obtain ⟨b1, b2⟩ := ph
        refine ⟨hpath2', ?_⟩
        intro e he
        rcases insertAlignment_mem st.alignments (b1 - a1)
            ⟨a1, b1, a2, b2, FL, false⟩ e he with hmem | hfresh | ⟨s0, hs0mem, hdup⟩
        · exact hal e hmem
        · subst hfresh
          obtain ⟨n, hn1, hn2, hA1, hA2, hbound, hmlow⟩ :=
            lowScan_spec path1 P2 c1 S2 a1 a2 hlow
          obtain ⟨m, hB1, hB2, hbm1, hbm2, hbd, hmhigh⟩ :=
            highScan_spec path1 P2 max1 max2 c1 S2 b1 b2 hc1 hS2 hhigh
          simp only [StatsOK]
          refine ⟨by omega, by omega, hbound, hbd, by omega, by omega, ?_⟩
          intro t ht
          rw [← hpath2']
          rcases Nat.le_total t n with htn | htn
          · have i1 : a1 + t = c1 - (n - t) := by omega
            have i2 : a2 + t = S2 - (n - t) := by omega
            rw [i1, i2]
            exact hmlow (n - t) (by omega)
          · have i1 : a1 + t = c1 + (t - n) := by omega
            have i2 : a2 + t = S2 + (t - n) := by omega
            rw [i1, i2]
            exact hmhigh (t - n) (by omega)
        · subst hdup
          exact StatsOK_markDup path1 p2orig max1 max2 (b1 - a1) s0 (hal _ hs0mem)
  case neg =>
    rw [if_neg hnf, if_neg hnf, if_neg hnf]
    have hpath2' : st.path2 = (if st.flipped then reverseComplementPath p2orig else p2orig) :=
      hp2
    cases hlow : lowScan path1 st.path2 c1 s2a with
    | none =>
      refine ⟨hpath2', ?_⟩
      intro e he
      exact hal e he
    | some pl =>
      obtain ⟨a1, a2⟩ := pl
      cases hhigh : highScan path1 st.path2 max1 max2 c1 s2a with
      | none =>
        refine ⟨hpath2', ?_⟩
        intro e he
        exact hal e he
      | some ph =>
        obtain ⟨b1, b2⟩ := ph
        refine ⟨hpath2', ?_⟩
        intro e he
        rcases insertAlignment_mem st.alignments (b1 - a1)
            ⟨a1, b1, a2, b2, st.flipped, false⟩ e he with hmem | hfresh | ⟨s0, hs0mem, hdup⟩
        · exact hal e hmem
        · subst hfresh
          obtain ⟨n, hn1, hn2, hA1, hA2, hbound, hmlow⟩ :=
            lowScan_spec path1 st.path2 c1 s2a a1 a2 hlow
          obtain ⟨m, hB1, hB2, hbm1, hbm2, hbd, hmhigh⟩ :=
            highScan_spec path1 st.path2 max1 max2 c1 s2a b1 b2 hc1 hs2a hhigh
          simp only [StatsOK]
          refine ⟨by omega, by omega, hbound, hbd, by omega, by omega, ?_⟩
          intro t ht
          rw [← hpath2']
          rcases Nat.le_total t n with htn | htn
          · have i1 : a1 + t = c1 - (n - t) := by omega
            have i2 : a2 + t = s2a - (n - t) := by omega
            rw [i1, i2]
            exact hmlow (n - t) (by omega)
          · have i1 : a1 + t = c1 + (t - n) := by omega
            have i2 : a2 + t = s2a + (t - n) := by omega
            rw [i1, i2]
            exact hmhigh (t - n) (by omega)
        · subst hdup
          exact StatsOK_markDup path1 p2orig max1 max2 (b1 - a1) s0 (hal _ hs0mem)

theorem foldlInner_StateOK (path1 p2orig : ContigPath) (max1 max2 c1 : Nat)
    (hc1 : c1 ≤ max1) :
    ∀ (coords2 : List Nat) (st : SeedState),
      (∀ c ∈ coords2, c ≤ max2) →
      StateOK path1 p2orig max1 max2 st →
      StateOK path1 p2orig max1 max2
        (coords2.foldl (fun st c2 => seedStep path1 max1 max2 st c1 c2) st)
  | [], st, _, hst => hst
  | c2 :: coords2, st, hb, hst => by
    simp only [List.foldl_cons]
    exact foldlInner_StateOK path1 p2orig max1 max2 c1 hc1 coords2 _
      (fun c hc => hb c (List.mem_cons_of_mem _ hc))
      (seedStep_StateOK path1 p2orig max1 max2 st c1 c2 hc1
        (hb c2 (List.mem_cons_self _ _)) hst)

theorem runSeeds_StateOK (path1 p2orig : ContigPath) (max1 max2 : Nat) :
    ∀ (coords1 coords2 : List Nat) (st : SeedState),
      (∀ c ∈ coords1, c ≤ max1) → (∀ c ∈ coords2, c ≤ max2) →
      StateOK path1 p2orig max1 max2 st →
      StateOK path1 p2orig max1 max2 (runSeeds path1 max1 max2 coords1 coords2 st)
  | [], _, st, _, _, hst => hst
  | c1 :: coords1, coords2, st, hb1, hb2, hst => by
    have h1 := foldlInner_StateOK path1 p2orig max1 max2 c1
      (hb1 c1 (List.mem_cons_self _ _)) coords2 st hb2 hst
    have h2 := runSeeds_StateOK path1 p2orig max1 max2 coords1 coords2 _
      (fun c hc => hb1 c (List.mem_cons_of_mem _ hc)) hb2 h1
    simpa only [runSeeds, List.foldl_cons] using h2

/-- The state computed by `checkPathConsistency` satisfies the invariant. -/
theorem checkSeedState_StateOK (root : Nat) (path1 path2 : ContigPath) :
    StateOK path1 path2 (path1.length - 1) (path2.length - 1)
      (checkSeedState root path1 path2) := by
  unfold checkSeedState
  apply runSeeds_StateOK
  · intro c hc
    have := extractMinCoordSet_mem root path1 c hc
    omega
  · intro c hc
    have := extractMinCoordSet_mem root path2 c hc
    omega
  · refine ⟨rfl, ?_⟩
    intro e he
    exact absurd he (by simp)

theorem runSeeds_empty_alignments (path1 : ContigPath) (max1 max2 : Nat)
    (coords1 coords2 : List Nat) (init : SeedState)
    (h : coords1.isEmpty = true ∨ coords2.isEmpty = true) :
    (runSeeds path1 max1 max2 coords1 coords2 init).alignments = init.alignments := by
  rcases h with h | h
  · rw [List.isEmpty_iff] at h
    subst h
    rfl
  · rw [List.isEmpty_iff] at h
    subst h
    unfold runSeeds
    induction coords1 generalizing init with
    | nil => rfl
    | cons c1 coords1 ih =>
      simp only [List.foldl_cons, List.foldl_nil]
      exact ih _

/-- Claim C4: every alignment recorded by the seed loop touches index 0 in at
least one path and the last index in at least one path, so the two sanity
assertions at the resolve step (lines 581-582) never fail: any input pair
that passes the entry assertion gets a result instead of aborting. -/
theorem check_boundary_asserts :
    ∀ (root : Nat) (path1 path2 : ContigPath),
      path1 ≠ [] → path2.length ≠ 1 →
      (∀ e ∈ (checkSeedState root path1 path2).alignments,
        (e.2.startP1 = 0 ∨ e.2.startP2 = 0)
          ∧ (e.2.endP1 = path1.length - 1 ∨ e.2.endP2 = path2.length - 1)) ∧
      checkPathConsistency root path1 path2 ≠ none := by
  intro root path1 path2 h1 h2
  have hstate := checkSeedState_StateOK root path1 path2
  constructor
  · intro e he
    have hs := hstate.2 e he
    simp only [StatsOK] at hs
    exact ⟨hs.2.2.1, hs.2.2.2.1⟩
  · have hentry : ¬ (path1.length = 0 ∨ path2.length = 1) := by
      intro hcon
      rcases hcon with hcon | hcon
      · exact h1 (List.length_eq_zero.mp hcon)
      · exact h2 hcon
    simp only [checkPathConsistency]
    rw [if_neg hentry]
    split
    · simp
    · cases hb : biggestAlignment (checkSeedState root path1 path2).alignments with
      | none => simp [hb]
      | some p =>
        obtain ⟨count, stats⟩ := p
        have hs := hstate.2 (count, stats) (biggestAlignment_mem _ _ hb)
        simp only [StatsOK] at hs
        simp only [hb]
        rw [if_neg (not_not_intro hs.2.2.1), if_neg (not_not_intro hs.2.2.2.1)]
        split
        · simp
        · split <;> split <;> simp

/-- Witness for C4 at a concrete pair of overlapping paths: the check
resolves without hitting an assertion. -/
theorem check_boundary_asserts_witness :
    (checkPathConsistency 0 [⟨0, false⟩] [⟨0, false⟩, ⟨1, false⟩]).isSome = true :=
  Option.isSome_iff_ne_none.mpr
    ((check_boundary_asserts 0 [⟨0, false⟩] [⟨0, false⟩, ⟨1, false⟩]
      (by decide) (by decide)).2)

/-- Claim C3: if two seed pairs recorded subpaths of the same maximal length
(`duplicateSize` set) and that winning length is less than
`min(|A|-1, |B|-1)`, the check returns false; a duplicate maximum of length
equal to that minimum is not rejected on this ground — the outcome is then
decided by the interior re-check alone. -/
theorem check_duplicate_rejection :
    ∀ (root : Nat) (path1 path2 : ContigPath) (count : Nat)
      (stats : PathConsistencyStats),
      path1 ≠ [] → path2.length ≠ 1 →
      biggestAlignment (checkSeedState root path1 path2).alignments
        = some (count, stats) →
      stats.duplicateSize = true →
      (count < min (path1.length - 1) (path2.length - 1) →
        (checkPathConsistency root path1 path2).map CheckResult.valid
          = some false) ∧
      (count = min (path1.length - 1) (path2.length - 1) →
        ∃ r, checkPathConsistency root path1 path2 = some r
          ∧ r.startP1 = stats.startP1 ∧ r.startP2 = stats.startP2
          ∧ r.endP1 = stats.endP1 ∧ r.endP2 = stats.endP2
          ∧ r.valid = !(interiorMismatch path1 r.path2
              stats.startP1 stats.startP2 count)) := by
  intro root path1 path2 count stats h1 h2 hbig hdup
  have hentry : ¬ (path1.length = 0 ∨ path2.length = 1) := by
    intro hcon
    rcases hcon with hcon | hcon
    · exact h1 (List.length_eq_zero.mp hcon)
    · exact h2 hcon
  have hstate := checkSeedState_StateOK root path1 path2
  have hs := hstate.2 (count, stats) (biggestAlignment_mem _ _ hbig)
  simp only [StatsOK] at hs
  simp only [checkPathConsistency]
  rw [if_neg hentry]
  constructor
  · intro hlt
    split
    case isTrue hco =>
      have : (checkSeedState root path1 path2).alignments = [] := by
        unfold checkSeedState
        exact runSeeds_empty_alignments path1 _ _ _ _ _
          (by rcases hco with hco | hco
              · exact Or.inl hco
              · exact Or.inr hco)
      rw [this] at hbig
      exact absurd hbig (by simp [biggestAlignment])
    case isFalse hco =>
      simp only [hbig]
      rw [if_neg (not_not_intro hs.2.2.1), if_neg (not_not_intro hs.2.2.2.1)]
      rw [if_pos ⟨hdup, by omega⟩]
      simp
  · intro heq
    split
    case isTrue hco =>
      have : (checkSeedState root path1 path2).alignments = [] := by
        unfold checkSeedState
        exact runSeeds_empty_alignments path1 _ _ _ _ _
          (by rcases hco with hco | hco
              · exact Or.inl hco
              · exact Or.inr hco)
      rw [this] at hbig
      exact absurd hbig (by simp [biggestAlignment])
    case isFalse hco =>
      simp only [hbig]
      rw [if_neg (not_not_intro hs.2.2.1), if_neg (not_not_intro hs.2.2.2.1)]
      rw [if_neg (fun hcon => hcon.2 heq)]
      by_cases him : interiorMismatch path1
          (if stats.flipped ≠ (checkSeedState root path1 path2).flipped
           then reverseComplementPath (checkSeedState root path1 path2).path2
           else (checkSeedState root path1 path2).path2)
          stats.startP1 stats.startP2 count = true
      · rw [if_pos him]
        refine ⟨_, rfl, rfl, rfl, rfl, rfl, ?_⟩
        simp only [him, Bool.not_true]
      · rw [if_neg him]
        refine ⟨_, rfl, rfl, rfl, rfl, rfl, ?_⟩
        rw [Bool.not_eq_true] at him
        simp only [him, Bool.not_false]

/-- Witness for C3 at the ambiguous pair A = y a q b y, B = b y a (root y):
two seed pairs record subpaths of maximal length 1, `duplicateSize` is set,
1 < min(4, 2), and the check rejects the pair. -/
theorem check_duplicate_rejection_witness :
    (checkPathConsistency 1
        [⟨1, false⟩, ⟨2, false⟩, ⟨3, false⟩, ⟨4, false⟩, ⟨1, false⟩]
        [⟨4, false⟩, ⟨1, false⟩, ⟨2, false⟩]).map CheckResult.valid
      = some false :=
  (check_duplicate_rejection 1
      [⟨1, false⟩, ⟨2, false⟩, ⟨3, false⟩, ⟨4, false⟩, ⟨1, false⟩]
      [⟨4, false⟩, ⟨1, false⟩, ⟨2, false⟩]
      1 ⟨3, 4, 0, 1, false, true⟩
      (by decide) (by decide) (by decide) rfl).1 (by decide)

/-- The final orientation fixup (lines 597-598) leaves `path2` oriented as
the winning alignment recorded it. -/
theorem path2f_eq (root : Nat) (path1 path2 : ContigPath)
    (stats : PathConsistencyStats) :
    (if stats.flipped ≠ (checkSeedState root path1 path2).flipped
     then reverseComplementPath (checkSeedState root path1 path2).path2
     else (checkSeedState root path1 path2).path2)
      = (if stats.flipped then reverseComplementPath path2 else path2) := by
  have hstp2 := (checkSeedState_StateOK root path1 path2).1
  by_cases hfl : stats.flipped = (checkSeedState root path1 path2).flipped
  · rw [if_neg (not_not_intro hfl), hstp2, hfl]
  · rw [if_pos hfl, hstp2]
    cases hc : (checkSeedState root path1 path2).flipped
    · cases hs : stats.flipped
      · rw [hc, hs] at hfl
        exact absurd rfl hfl
      · simp
    · cases hs : stats.flipped
      · simp [reverseComplementPath_involutive]
      · rw [hc, hs] at hfl
        exact absurd rfl hfl

/-- Claim C6: when `checkPathConsistency` accepts a pair with chosen
inclusive ranges, the contig ids agree element-by-element across the whole
chosen range — offsets 0 up to and including `endP1 - startP1` — and an id
mismatch anywhere in that range forces a false return instead. -/
theorem check_interior_equality :
    ∀ (root : Nat) (path1 path2 : ContigPath) (r : CheckResult),
      checkPathConsistency root path1 path2 = some r →
      (r.valid = true →
        ∀ c, c ≤ r.endP1 - r.startP1 →
          (path1.getD (r.startP1 + c) dmn).id
            = (r.path2.getD (r.startP2 + c) dmn).id) ∧
      ((∃ c, c ≤ r.endP1 - r.startP1 ∧
          (path1.getD (r.startP1 + c) dmn).id
            ≠ (r.path2.getD (r.startP2 + c) dmn).id) →
        r.valid = false) := by
  intro root path1 path2 r hr
  have main : r.valid = true →
      ∀ c, c ≤ r.endP1 - r.startP1 →
        (path1.getD (r.startP1 + c) dmn).id
          = (r.path2.getD (r.startP2 + c) dmn).id := by
    intro hv c hc
    simp only [checkPathConsistency] at hr
    split at hr
    case isTrue => exact absurd hr (by simp)
    case isFalse hentry =>
      split at hr
      case isTrue =>
        injection hr with hr
        rw [← hr] at hv
        exact absurd hv (by simp)
      case isFalse hcoords =>
        cases hb : biggestAlignment (checkSeedState root path1 path2).alignments with
        | none =>
          simp only [hb] at hr
          injection hr with hr
          rw [← hr] at hv
          exact absurd hv (by simp)
        | some p =>
          obtain ⟨count, stats⟩ := p
          simp only [hb] at hr
          split at hr
          case isTrue => exact absurd hr (by simp)
          case isFalse ha1 =>
            split at hr
            case isTrue => exact absurd hr (by simp)
            case isFalse ha2 =>
              split at hr
              case isTrue =>
                injection hr with hr
                rw [← hr] at hv
                exact absurd hv (by simp)
              case isFalse hdupcond =>
                have hs := (checkSeedState_StateOK root path1 path2).2
                  (count, stats) (biggestAlignment_mem _ _ hb)
                simp only [StatsOK] at hs
                rw [path2f_eq root path1 path2 stats] at hr
                by_cases him : interiorMismatch path1
                    (if stats.flipped then reverseComplementPath path2 else path2)
                    stats.startP1 stats.startP2 count = true
                · rw [if_pos him] at hr
                  injection hr with hr
                  rw [← hr] at hv
                  exact absurd hv (by simp)
                · rw [if_neg him] at hr
                  injection hr with hr
                  rw [← hr] at hv hc ⊢
                  simp only at hc ⊢
                  exact hs.2.2.2.2.2.2 c (by omega)
  refine ⟨main, ?_⟩
  rintro ⟨c, hc, hne⟩
  cases hval : r.valid
  · rfl
  · exact absurd (main hval c hc) hne

/-- Witness for C6 at a concrete accepted pair A = a y, B = y b (root y):
the chosen ranges are [1,1] on A and [0,0] on B and the ids agree across the
whole range. -/
theorem check_interior_equality_witness :
    (([⟨0, false⟩, ⟨1, false⟩] : ContigPath).getD (1 + 0) dmn).id
      = (([⟨1, false⟩, ⟨2, false⟩] : ContigPath).getD (0 + 0) dmn).id :=
  (check_interior_equality 1 [⟨0, false⟩, ⟨1, false⟩] [⟨1, false⟩, ⟨2, false⟩]
      ⟨true, 1, 1, 0, 0, [⟨1, false⟩, ⟨2, false⟩]⟩ (by decide)).1 rfl 0 (by decide)

/-- Counterexample to claim C8 as stated: for A = x y z y w and the
single-element path B = y, `checkPathConsistency` fails its entry assertion
`path2.size() != 1` (line 478) and aborts; it never reaches the
duplicate-size logic, so it does not *return* false. -/
theorem s3_singleton_cex :
    checkPathConsistency 1
      [⟨0, false⟩, ⟨1, false⟩, ⟨2, false⟩, ⟨1, false⟩, ⟨3, false⟩]
      [⟨1, false⟩] = none := rfl

/-- Claim C8 (amended): the scenario's B = y trips the entry assertion and
aborts rather than being rejected; the ambiguous-overlap rejection behaves as
S3 describes on the nearest legal configuration with |B| ≥ 2 — for
A = y a q b y and B = b y a (root y) two seed pairs record subpaths of the
same maximal length 1, `duplicateSize` is set, and 1 < min(4, 2) = 2, so the
pair is rejected. -/
theorem s3_singleton_amended :
    checkPathConsistency 1
        [⟨0, false⟩, ⟨1, false⟩, ⟨2, false⟩, ⟨1, false⟩, ⟨3, false⟩]
        [⟨1, false⟩] = none ∧
      (checkPathConsistency 1
          [⟨1, false⟩, ⟨2, false⟩, ⟨3, false⟩, ⟨4, false⟩, ⟨1, false⟩]
          [⟨4, false⟩, ⟨1, false⟩, ⟨2, false⟩]).map CheckResult.valid
        = some false ∧
      (biggestAlignment (checkSeedState 1
          [⟨1, false⟩, ⟨2, false⟩, ⟨3, false⟩, ⟨4, false⟩, ⟨1, false⟩]
          [⟨4, false⟩, ⟨1, false⟩, ⟨2, false⟩]).alignments).map
          (fun e => (e.1, e.2.duplicateSize)) = some (1, true) ∧
      (1 : Nat) < min (5 - 1) (3 - 1) :=
  ⟨rfl, rfl, rfl, by decide⟩

end MergePaths
